import Mathlib

/-!
Verification development for the WooriDB core (wql value/ID types, query
controllers, auth controllers).  Rust source functions are shallowly embedded
as executable Lean definitions: machine integers become `Nat`/`Int`, `f64`
becomes its 64-bit pattern as a `Nat`, `HashMap`/`BTreeMap` become association
lists (the latter kept sorted), fallible code returns `Except`/`Option`.
-/

set_option autoImplicit false

namespace WooriDB

/-! ## IEEE-754 double model (bit patterns as `Nat < 2^64`)

The Rust sources store `f64` values; we embed each as its raw bit pattern.
`f64Key` maps a non-NaN pattern to an integer whose order/equality agrees with
IEEE comparison of the encoded values (finite values are scaled by `2^1075`;
infinities map outside the finite range). -/

/-- Sign bit of an f64 bit pattern. -/
def f64Sign (b : Nat) : Nat := b / 2 ^ 63 % 2

/-- Biased exponent field (11 bits) of an f64 bit pattern. -/
def f64Expf (b : Nat) : Nat := b / 2 ^ 52 % 2 ^ 11

/-- Fraction field (52 bits) of an f64 bit pattern. -/
def f64Frac (b : Nat) : Nat := b % 2 ^ 52

/-- NaN test on an f64 bit pattern. -/
def f64IsNan (b : Nat) : Bool := f64Expf b == 2047 && f64Frac b != 0

/-- Magnitude of a finite f64, scaled by 2^1075 so it is a natural number:
subnormals contribute `2*frac`, normals `(frac + 2^52) * 2^expf`. -/
def f64Mag (b : Nat) : Nat :=
  if f64Expf b = 0 then 2 * f64Frac b else (f64Frac b + 2 ^ 52) * 2 ^ f64Expf b

/-- Order key of an f64 bit pattern: finite values map to their scaled signed
magnitude, infinities to `±2^2200` (strictly outside the finite range). -/
def f64Key (b : Nat) : Int :=
  if f64Expf b = 2047 then
    (if f64Sign b = 0 then (2 : Int) ^ 2200 else -((2 : Int) ^ 2200))
  else
    (if f64Sign b = 0 then (f64Mag b : Int) else -(f64Mag b : Int))

/-- IEEE equality of two f64 bit patterns (`==` on Rust `f64`): NaN equals
nothing, `+0.0 == -0.0`, otherwise value equality. -/
def f64Eq (a b : Nat) : Bool :=
  !f64IsNan a && !f64IsNan b && f64Key a == f64Key b

/-- IEEE strict greater-than on two f64 bit patterns (`>` on Rust `f64`). -/
def f64Gt (a b : Nat) : Bool :=
  !f64IsNan a && !f64IsNan b && decide (f64Key a > f64Key b)

/-- Modelled from the spec: `integer_decode` (defined in `wql/src/logic.rs`,
which is not under `src/`) decodes an f64 bit pattern into
`(mantissa, exponent, sign)`; the spec requires Float hashing to "decode the
bit pattern (sign, mantissa, exponent)".  This is the standard num-traits
decoding used by the source. -/
def integer_decode (b : Nat) : Nat × Int × Int :=
  let sign : Int := if b / 2 ^ 63 = 0 then 1 else -1
  let expf : Nat := f64Expf b
  let mantissa : Nat :=
    if expf = 0 then f64Frac b * 2 else f64Frac b + 2 ^ 52
  (mantissa, (expf : Int) - 1075, sign)

/-- Round-to-nearest-even mantissa rounding used by Rust's `as f64` cast:
shifts `n` right by `shift` bits, rounding ties to even. -/
def roundMantissa (n shift : Nat) : Nat :=
  let q := n / 2 ^ shift
  let r := n % 2 ^ shift
  let half := 2 ^ (shift - 1)
  if r > half || (r == half && q % 2 == 1) then q + 1 else q

/-- Bit pattern of `(m : isize) as f64` (round to nearest, ties to even). -/
def intToF64 (m : Int) : Nat :=
  if m = 0 then 0
  else
    let s : Nat := if m < 0 then 2 ^ 63 else 0
    let n : Nat := m.natAbs
    let k : Nat := Nat.log2 n
    if k ≤ 52 then
      s + (k + 1023) * 2 ^ 52 + (n * 2 ^ (52 - k) - 2 ^ 52)
    else
      let q := roundMantissa n (k - 52)
      if q = 2 ^ 53 then s + (k + 1024) * 2 ^ 52
      else s + (k + 1023) * 2 ^ 52 + (q - 2 ^ 52)

/-! ## The wql value domain `Types` (src/wql/src/lib.rs, lines 84-204)

`Vector` carries a list; `Map` carries its `HashMap` contents as the
association list in the map's iteration order (Rust `HashMap` iteration order
is arbitrary, so two equal maps may carry differently ordered lists).
`Uuid` is the 128-bit value, `Float` the 64-bit pattern, `DateTime`
nanoseconds since epoch. -/

/-- Alias for `String`, usable inside the `Types` namespace where the bare
name resolves to the `Types.String` constructor. -/
abbrev StrT := String

inductive Types where
  | Char (c : Char)
  | Integer (i : Int)
  | String (s : String)
  | Uuid (u : Nat)
  | Float (bits : Nat)
  | Boolean (b : Bool)
  | Vector (v : List Types)
  | Map (m : List (String × Types))
  | Hash (s : String)
  | Precise (s : String)
  | DateTime (t : Int)
  | Nil
  deriving Repr

/-- Structural equality of `Types` (Rust `#[derive(PartialEq)]`): `Float`
compares by IEEE `==`, `Map` by `HashMap` equality (same length and every key
of the left maps to an equal value on the right), other variants structurally. -/
def Types.beq : Types → Types → Bool
  | .Char a, .Char b => a == b
  | .Integer a, .Integer b => a == b
  | .String a, .String b => a == b
  | .Uuid a, .Uuid b => a == b
  | .Float a, .Float b => f64Eq a b
  | .Boolean a, .Boolean b => a == b
  | .Vector a, .Vector b => beqList a b
  | .Map a, .Map b =>
    a.length == b.length && beqAll a b
  | .Hash a, .Hash b => a == b
  | .Precise a, .Precise b => a == b
  | .DateTime a, .DateTime b => a == b
  | .Nil, .Nil => true
  | _, _ => false
where
  /-- Pointwise equality of `Vec<Types>`. -/
  beqList : List Types → List Types → Bool
    | [], [] => true
    | x :: xs, y :: ys => Types.beq x y && beqList xs ys
    | _, _ => false
  /-- Every pair of the left map finds an equal value at its key on the right
  (Rust `HashMap::eq`'s `iter().all(...)` part). -/
  beqAll : List (StrT × Types) → List (StrT × Types) → Bool
    | [], _ => true
    | (k, v) :: rest, b =>
      (match b.lookup k with
       | some v2 => Types.beq v v2
       | none => false) && beqAll rest b

/-- Tokens fed to the hasher by `impl Hash for Types`: each primitive write is
one token; `Vector` is hashed as Rust hashes a `Vec` (length then elements);
`Map` is hashed by the source's manual fold over iteration order (no length). -/
inductive HToken where
  | hChar (c : Char)
  | hInt (i : Int)
  | hStr (s : String)
  | hUuid (u : Nat)
  | hDecoded (d : Nat × Int × Int)
  | hBool (b : Bool)
  | hLen (n : Nat)
  | hDate (t : Int)
  deriving Repr, DecidableEq

/-- Token stream written by `impl Hash for Types` (src/wql/src/lib.rs 180-204):
`Float` hashes its `integer_decode`, `Nil` hashes the empty string, `Map`
folds `k.hash; v.hash` over the map's iteration order. -/
def Types.hashTokens : Types → List HToken
  | .Char c => [.hChar c]
  | .Integer i => [.hInt i]
  | .String s => [.hStr s]
  | .Uuid u => [.hUuid u]
  | .Float b => [.hDecoded (integer_decode b)]
  | .Boolean b => [.hBool b]
  | .Vector v => .hLen v.length :: hashList v
  | .Map m => hashMap m
  | .Hash s => [.hStr s]
  | .Precise s => [.hStr s]
  | .DateTime t => [.hDate t]
  | .Nil => [.hStr ""]
where
  /-- Concatenated element streams of a vector. -/
  hashList : List Types → List HToken
    | [] => []
    | x :: xs => Types.hashTokens x ++ hashList xs
  /-- The source's `Map` fold: key string then value stream, in order. -/
  hashMap : List (StrT × Types) → List HToken
    | [] => []
    | (k, v) :: rest => .hStr k :: (Types.hashTokens v ++ hashMap rest)

/-- Embedding of `impl PartialOrd for Types::partial_cmp`
(src/wql/src/lib.rs 146-176).  Note the `Float`/`Float` and `Integer`/`Float`
arms return `Greater` if `a > b` and otherwise `Less` — never `Equal`. -/
def Types.pcmp : Types → Types → Option Ordering
  | .Integer a, .Integer b => some (compare a b)
  | .Float a, .Float b => some (if f64Gt a b then .gt else .lt)
  | .Integer a, .Float b => some (if f64Gt (intToF64 a) b then .gt else .lt)
  | .Float a, .Integer b => some (if f64Gt a (intToF64 b) then .gt else .lt)
  | .Char a, .Char b => some (compare a b)
  | .String a, .String b => some (compare a b)
  | .Precise a, .Precise b => some (compare a b)
  | .Uuid a, .Uuid b => some (compare a b)
  | .Boolean a, .Boolean b => some (compare a b)
  | .Vector a, .Vector b => some (compare a.length b.length)
  | _, _ => none

/-- Embedding of `Types::default_values` (src/wql/src/lib.rs 101-116).  The
`Uuid` arm calls `Uuid::new_v4()` and the `DateTime` arm calls `Utc::now()`;
those ambient effects are passed in as `freshUuid` and `now`. -/
def Types.default_values (t : Types) (freshUuid : Nat) (now : Int) : Types :=
  match t with
  | .Char _ => .Char ' '
  | .Integer _ => .Integer 0
  | .String _ => .String ""
  | .Uuid _ => .Uuid freshUuid
  | .Float _ => .Float 0
  | .Boolean _ => .Boolean false
  | .Vector _ => .Vector []
  | .Map _ => .Map []
  | .Hash _ => .Hash ""
  | .Precise _ => .Precise "0"
  | .DateTime _ => .DateTime now
  | .Nil => .Nil

/-! ## Entity identifiers (src/wql/src/lib.rs 206-315) -/

/-- Embedding of `enum ID` (`Uuid` as the 128-bit value, `Number` as the
`usize`). -/
inductive ID where
  | Uuid (u : Nat)
  | Number (n : Nat)
  | String (s : String)
  deriving Repr, DecidableEq

/-- The `#[derive(PartialOrd, Ord)]` order on `ID`: variants in declaration
order (`Uuid < Number < String`); `Uuid` byte-lexicographic (equivalently its
128-bit big-endian value), `Number` numeric, `String` lexicographic. -/
def idCmp : ID → ID → Ordering
  | .Uuid a, .Uuid b => compare a b
  | .Uuid _, _ => .lt
  | .Number _, .Uuid _ => .gt
  | .Number a, .Number b => compare a b
  | .Number _, .String _ => .lt
  | .String a, .String b => compare a b
  | .String _, _ => .gt

/-- Entity state: the `HashMap<String, Types>` of one row, as an association
list. -/
abbrev Entity := List (String × Types)

/-! ## Error kinds (woori-db model/error.rs; the variants reached by the
embedded controllers) -/

inductive Error where
  | EntityNotCreated (e : String)
  | IdNotCreatedForEntity (e : String) (id : ID)
  | CheckNonEncryptedKeys (ks : List String)
  | LockData
  | DateTimeParse
  | AuthenticationBadRequest
  | AuthenticationBadRequestBody (msg : String)
  | FailedToCreateUser
  | Unknown
  deriving Repr, DecidableEq

/-! ## BTreeMap model: association lists sorted by key -/

/-- Insertion into a `BTreeMap<ID, α>` modelled as a sorted association list:
keys strictly ascend in `idCmp`; inserting an existing key replaces its
value. -/
def btreeInsert {α : Type} (k : ID) (v : α) : List (ID × α) → List (ID × α)
  | [] => [(k, v)]
  | (k', v') :: rest =>
    match idCmp k k' with
    | .lt => (k, v) :: (k', v') :: rest
    | .eq => (k, v) :: rest
    | .gt => (k', v') :: btreeInsert k v rest

/-- Strict ascending sortedness of a `BTreeMap` association list: every key
strictly precedes every later key in `idCmp`. -/
def btreeSorted {α : Type} (l : List (ID × α)) : Prop :=
  l.Pairwise fun p q => idCmp p.1 q.1 = .lt

/-! ## Modelled collaborators of the query controllers

`filter_keys_and_hash`, `get_limit_offset_count` and the dedup/manipulation
stages live in `woori-db/src/core/query.rs`, which is not under `src/`; the
claims below stop at (or are parameterised over) those stages. -/

/-- Modelled from the spec: `filter_keys_and_hash` (woori-db core/query.rs,
not under `src/`) "strips algebraic-hash metadata, projects requested keys":
it drops `Hash`-valued entries, and when a key set is supplied keeps only keys
in the set. -/
def filter_keys_and_hash (state : Entity) (keys : Option (List String)) :
    Entity :=
  state.filter fun kv =>
    (match kv.2 with | Types.Hash _ => false | _ => true) &&
      (match keys with | some ks => ks.contains kv.1 | none => true)

/-- In-memory store: `entity_name → (id → (register, state))`; the register
part is irrelevant to the embedded claims, so an entry carries the state. -/
abbrev LocalData := List (String × List (ID × Entity))

/-- Rows-collection phase of `select_all_with_ids`
(src/woori-db/src/controllers/query.rs 302-350), up to (not including) the
`dedup_option_states` / `get_result_after_manipulation_for_options` stages
(whose code is not under `src/`).  `offset` and `limit` are the values
extracted by `get_limit_offset_count`.  The requested ids are looked up in
request order, ids not present are dropped (`filter(reg.is_some())`), `skip
offset` and `take limit` are applied to that request-ordered list, and the
surviving rows are inserted into a `BTreeMap<ID, Option<state>>`. -/
def select_all_with_ids (localData : LocalData) (entity : String)
    (ids : List ID) (offset limit : Nat) :
    Except Error (List (ID × Option Entity)) :=
  match localData.lookup entity with
  | none => .error (.EntityNotCreated entity)
  | some idToRegistry =>
    let registries := ids.filterMap fun id =>
      (idToRegistry.lookup id).map fun reg => (id, reg)
    let page := (registries.drop offset).take limit
    .ok <| page.foldl
      (fun acc (idReg : ID × Entity) =>
        btreeInsert idReg.1 (some (filter_keys_and_hash idReg.2 none)) acc)
      []

/-- Rows-collection phase of `select_keys_with_ids`
(src/woori-db/src/controllers/query.rs 383-433); identical to
`select_all_with_ids` except each surviving state is projected onto the
requested key set. -/
def select_keys_with_ids (localData : LocalData) (entity : String)
    (keys : List String) (ids : List ID) (offset limit : Nat) :
    Except Error (List (ID × Option Entity)) :=
  match localData.lookup entity with
  | none => .error (.EntityNotCreated entity)
  | some idToRegistry =>
    let registries := ids.filterMap fun id =>
      (idToRegistry.lookup id).map fun reg => (id, reg)
    let page := (registries.drop offset).take limit
    .ok <| page.foldl
      (fun acc (idReg : ID × Entity) =>
        btreeInsert idReg.1 (some (filter_keys_and_hash idReg.2 (some keys)))
          acc)
      []

/-! ## CHECK controller (src/woori-db/src/controllers/query.rs 106-156) -/

/-- Embedding of `check_value_controller`.  The encryption map lock is taken
as already acquired (`if let Ok(guard)`; a poisoned lock silently skips the
check).  The outer `Option` models panics: `none` is the `.unwrap()` panic on
an id absent from the entity's id map (line 141); `some` is the returned
`Result`.  The success payload is the filtered state handed to the
`VerifyEncryption` actor (whose code is not under `src/`). -/
def check_value_controller (encryption : List (String × List String))
    (localData : LocalData) (entity : String) (id : ID)
    (content : List (String × String)) :
    Option (Except Error Entity) :=
  let afterCheck : Option (Except Error Entity) :=
    if (localData.lookup entity).isNone then
      some (.error (.EntityNotCreated entity))
    else
      match (localData.lookup entity).getD [] |>.lookup id with
      | none => none
      | some reg =>
        let keys := content.map (·.1)
        some (.ok (reg.filter fun kv => keys.contains kv.1))
  match encryption.lookup entity with
  | some encrypts =>
    let nonEncryptKeys :=
      (content.filter fun kv => !encrypts.contains kv.1).map (·.1)
    if nonEncryptKeys ≠ [] then
      some (.error (.CheckNonEncryptedKeys nonEncryptKeys))
    else afterCheck
  | none => afterCheck

/-! ## SELECT WHEN RANGE (src/woori-db/src/controllers/query.rs 158-184) -/

/-- One log line: a register of a mutation of `(entity, id)` at `time`
(nanoseconds since epoch), recording the state after the mutation. -/
structure Register where
  entity : String
  id : ID
  time : Int
  state : Entity

/-- Nanoseconds per UTC day. -/
def nsPerDay : Int := 86400000000000

/-- UTC day number of a timestamp (floor division, as chrono's date). -/
def dayOf (t : Int) : Int := t.fdiv nsPerDay

/-- On-disk day logs: UTC day number to the registers appended on that day. -/
abbrev DayLogs := List (Int × List Register)

/-- Modelled from the spec: the `ReadEntityRange` actor
(woori-db `actors/when.rs`, not under `src/`).  Per the spec, "Range reads
fold across all logs between start and end inclusive": every day log whose
date lies between the start date and the end date inclusive is replayed, and
the registers of the target `(entity, id)` are collected in order. -/
def readEntityRange (entity : String) (id : ID) (startDate endDate : Int)
    (logs : DayLogs) : List Register :=
  ((logs.filter fun dl =>
      dayOf startDate ≤ dl.1 && dl.1 ≤ dayOf endDate).map Prod.snd).flatten
    |>.filter fun r => r.entity == entity && r.id == id

/-- Embedding of `select_all_when_range_controller`
(src/woori-db/src/controllers/query.rs 158-184): parse the start datetime,
parse the end datetime (either failure is a `DateTimeParse` error), then
delegate to the `ReadEntityRange` actor.  `parseDt` is chrono's
`str::parse::<DateTime<Utc>>`, an external collaborator. -/
def select_all_when_range_controller (entity : String) (id : ID)
    (startDate endDate : String) (parseDt : String → Option Int)
    (logs : DayLogs) : Except Error (List Register) :=
  match parseDt startDate with
  | none => .error .DateTimeParse
  | some s =>
    match parseDt endDate with
    | none => .error .DateTimeParse
    | some e => .ok (readEntityRange entity id s e logs)

/-! ## Auth controllers (src/woori-db/src/auth/controllers.rs) -/

/-- The `user_info` part of a create-user request body. -/
structure CreateUserInfo where
  user_password : String
  role : List String

/-- A parsed create-user request body. -/
structure CreateUserWithAdmin where
  admin_id : String
  admin_password : String
  user_info : CreateUserInfo

/-- The create-user success payload. -/
structure UserId where
  user_id : Nat
  deriving Repr, DecidableEq

/-- Embedding of `create_user_controller`
(src/woori-db/src/auth/controllers.rs 46-84).  External collaborators are
passed in: `cred` is the outcome of deserializing the body (`none` carries the
error message as `parseErr`), `isValidHash pw id` is
`admin.is_valid_hash(&pw, &id)` (bcrypt, opaque), `hashResult` the outcome of
`bcrypt::hash(user_password, admin.cost())`, `logAppendOk` the outcome of
`io::to_users_log`, `newUserId` the freshly minted `Uuid::new_v4()`. -/
def create_user_controller (cred : Option CreateUserWithAdmin)
    (isValidHash : String → String → Bool) (hashResult : Option String)
    (logAppendOk : Bool) (newUserId : Nat) (parseErr : String) :
    Except Error UserId :=
  match cred with
  | none => .error (.AuthenticationBadRequestBody parseErr)
  | some c =>
    if isValidHash c.admin_password c.admin_id then
      match hashResult with
      | some _userHash =>
        if logAppendOk then .ok ⟨newUserId⟩ else .error .FailedToCreateUser
      | none => .error .FailedToCreateUser
    else .error .AuthenticationBadRequest

/-- One session-table entry: expiration instant and the user's roles. -/
structure SessionInfo where
  expiration : Int
  roles : List String
  deriving Repr, DecidableEq

/-- The session table (`SessionContext`, a `HashMap<String, SessionInfo>`). -/
abbrev SessionTable := List (String × SessionInfo)

/-- Insertion into a `HashMap` modelled as an association list: the new pair
shadows any previous binding of the key. -/
def hmInsert (k : String) (v : SessionInfo) (tbl : SessionTable) :
    SessionTable :=
  (k, v) :: tbl.filter fun kv => kv.1 != k

/-- A parsed put-user-session request body. -/
structure UserCred where
  id : Nat
  user_password : String

/-- Embedding of `put_user_session_controller`
(src/woori-db/src/auth/controllers.rs 150-193).  Returns the controller's
`Result` together with the session table after the call.  External
collaborators are passed in: `okUser` is the body-parse outcome, `findUser`
the outcome of `io::find_user` (the stored `(hash, roles)`), `bverify pw h`
the outcome of `bcrypt::verify(&pw, &h)` (`none` is `Err`), `lockOk` whether
`session_context.lock()` succeeds, `hashTokenRes` the outcome of hashing a
fresh uuid into the token (with `fallbackUuid` as the `unwrap_or_else`
fallback), `now` the current time and `expTime` the configured TTL (both in
seconds, as `Duration::seconds`). -/
def put_user_session_controller (expTime : Int)
    (okUser : Option UserCred) (findUser : Option (String × List String))
    (bverify : String → String → Option Bool) (lockOk : Bool)
    (session : SessionTable) (hashTokenRes : Option String)
    (fallbackUuid : String) (now : Int) (parseErr : String) :
    Except Error String × SessionTable :=
  match okUser with
  | none => (.error (.AuthenticationBadRequestBody parseErr), session)
  | some user =>
    match findUser with
    | none => (.error .Unknown, session)
    | some (storedHash, roles) =>
      match bverify user.user_password storedHash with
      | some true =>
        if lockOk then
          let token := hashTokenRes.getD fallbackUuid
          let expiration := now + expTime
          (.ok token, hmInsert token ⟨expiration, roles⟩ session)
        else (.error .Unknown, session)
      | _ => (.error .Unknown, session)

/-! ## Human-readable ID serialization (src/wql/src/lib.rs 213-276)

`ID::Uuid` serializes to its lowercase hyphenated form; `ID::Number` to a
u64; `ID::String` to the raw string.  The deserializer's `visit_string`
returns `ID::Uuid` when `Uuid::parse_str` succeeds and `ID::String`
otherwise; `visit_u64` returns `ID::Number`.  `Uuid::parse_str` (uuid 0.8)
accepts the simple (32 hex), hyphenated (8-4-4-4-12) and urn
(`urn:uuid:` + hyphenated, length 45) forms, case-insensitively. -/

/-- Lowercase hex digit for `d < 16`. -/
def hexDigit (d : Nat) : Char :=
  if d < 10 then Char.ofNat (48 + d) else Char.ofNat (87 + d)

/-- Value of a hex digit character (case-insensitive), `none` otherwise. -/
def hexVal (c : Char) : Option Nat :=
  if 48 ≤ c.toNat ∧ c.toNat ≤ 57 then some (c.toNat - 48)
  else if 97 ≤ c.toNat ∧ c.toNat ≤ 102 then some (c.toNat - 87)
  else if 65 ≤ c.toNat ∧ c.toNat ≤ 70 then some (c.toNat - 55)
  else none

/-- Fixed-width big-endian lowercase hex rendering of `n`. -/
def toHexChars : Nat → Nat → List Char
  | 0, _ => []
  | len + 1, n => toHexChars len (n / 16) ++ [hexDigit (n % 16)]

/-- Accumulating hex parser: fails on the first non-hex character. -/
def parseHexGo (acc : Nat) : List Char → Option Nat
  | [] => some acc
  | c :: cs => (hexVal c).bind fun d => parseHexGo (acc * 16 + d) cs

/-- Splits a character list at every `'-'` (groups between hyphens). -/
def splitDash : List Char → List (List Char)
  | [] => [[]]
  | c :: cs =>
    if c = '-' then [] :: splitDash cs
    else
      match splitDash cs with
      | g :: gs => (c :: g) :: gs
      | [] => [[c]]

/-- The five hyphen-separated groups of a uuid value `u < 2^128`. -/
def uuidGroups (u : Nat) : List (List Char) :=
  [toHexChars 8 (u / 2 ^ 96), toHexChars 4 (u / 2 ^ 80 % 2 ^ 16),
   toHexChars 4 (u / 2 ^ 64 % 2 ^ 16), toHexChars 4 (u / 2 ^ 48 % 2 ^ 16),
   toHexChars 12 (u % 2 ^ 48)]

/-- Character list of the lowercase hyphenated rendering of a uuid
(`to_hyphenated().encode_lower(...)`). -/
def uuidHyphenatedChars (u : Nat) : List Char :=
  match uuidGroups u with
  | [g1, g2, g3, g4, g5] => g1 ++ '-' :: (g2 ++ '-' :: (g3 ++ '-' :: (g4 ++ '-' :: g5)))
  | _ => []

/-- Lowercase hyphenated rendering of a uuid, as a string. -/
def uuidHyphenated (u : Nat) : String := ⟨uuidHyphenatedChars u⟩

/-- Parses the five hyphen-separated groups of a hyphenated uuid: group
lengths must be 8-4-4-4-12 and all characters hex. -/
def parseHyphenGroups : List (List Char) → Option Nat
  | [a, b, c, d, e] =>
    if a.length = 8 ∧ b.length = 4 ∧ c.length = 4 ∧ d.length = 4 ∧
        e.length = 12 then
      (parseHexGo 0 a).bind fun v1 =>
      (parseHexGo 0 b).bind fun v2 =>
      (parseHexGo 0 c).bind fun v3 =>
      (parseHexGo 0 d).bind fun v4 =>
      (parseHexGo 0 e).bind fun v5 =>
      some ((((v1 * 2 ^ 16 + v2) * 2 ^ 16 + v3) * 2 ^ 16 + v4) * 2 ^ 48 + v5)
    else none
  | _ => none

/-- Embedding of `Uuid::parse_str` (uuid 0.8) on a character list: strip the
urn prefix when the length is 45, then accept the 32-hex simple form or the
8-4-4-4-12 hyphenated form. -/
def parseUuidChars (cs : List Char) : Option Nat :=
  let cs := if cs.length = 45 ∧ cs.take 9 = "urn:uuid:".toList
            then cs.drop 9 else cs
  if cs.length = 32 then parseHexGo 0 cs
  else if cs.length = 36 then parseHyphenGroups (splitDash cs)
  else none

/-- Embedding of `Uuid::parse_str` on a string. -/
def parseUuidStr (s : String) : Option Nat := parseUuidChars s.data

/-- A serde value produced by the human-readable `ID` serializer. -/
inductive SerValue where
  | str (s : String)
  | u64 (n : Nat)
  deriving Repr, DecidableEq

/-- Embedding of `impl Serialize for ID` on a human-readable serializer
(src/wql/src/lib.rs 213-230). -/
def serializeID : ID → SerValue
  | .Uuid u => .str (uuidHyphenated u)
  | .Number n => .u64 n
  | .String s => .str s

/-- Embedding of `IDVisitor` (src/wql/src/lib.rs 236-267): `visit_string`
tries `Uuid::parse_str` and falls back to `ID::String`; `visit_u64` always
yields `ID::Number` (its range guard is vacuous). -/
def deserializeID : SerValue → ID
  | .str s =>
    match parseUuidStr s with
    | some u => .Uuid u
    | none => .String s
  | .u64 n => .Number n

/-! ## Predicates used by the claim statements -/

/-- Variant pairs on which `partial_cmp` is defined: like comparable variants
plus the `Integer`/`Float` cross pairs (the spec's comparable domain). -/
def likeComparable : Types → Types → Bool
  | .Integer _, .Integer _ => true
  | .Float _, .Float _ => true
  | .Integer _, .Float _ => true
  | .Float _, .Integer _ => true
  | .Char _, .Char _ => true
  | .String _, .String _ => true
  | .Precise _, .Precise _ => true
  | .Uuid _, .Uuid _ => true
  | .Boolean _, .Boolean _ => true
  | .Vector _, .Vector _ => true
  | _, _ => false

/-- Values on which hashing is claimed consistent with equality after the
correction: no `Map` anywhere, and every `Float` bit pattern is a genuine
64-bit pattern other than `-0.0` (whose pattern is `2^63`). -/
def Types.hashCompatible : Types → Bool
  | .Float b => decide (b < 2 ^ 64) && b != 2 ^ 63
  | .Map _ => false
  | .Vector v => hcList v
  | _ => true
where
  /-- Every element of the list is hash-compatible. -/
  hcList : List Types → Bool
    | [] => true
    | x :: xs => Types.hashCompatible x && hcList xs

/-- Concrete datetime-parse fixture: maps two request strings to instants on
day 0 and day 2 (used to instantiate the range-read claim). -/
def parseFix (d : String) : Option Int :=
  if d = "2021-01-01T00:00:00Z" then some 0
  else if d = "2021-01-03T00:00:00Z" then some (2 * nsPerDay) else none

/-- Concrete day-log fixture: one register for `("ent", 1)` on each of days
0, 1 and 3 (day 3 lies outside the range of `parseFix`'s instants). -/
def logsFix : DayLogs :=
  [(0, [⟨"ent", .Number 1, 0, []⟩]),
   (1, [⟨"ent", .Number 1, nsPerDay, [("a", Types.Integer 1)]⟩]),
   (3, [⟨"ent", .Number 1, 3 * nsPerDay, [("a", Types.Integer 2)]⟩])]

/-! ## Lawfulness of `compare` and the derived `ID` order -/

theorem idCmp_eq_iff {a b : ID} : idCmp a b = .eq ↔ a = b := by
  cases a <;> cases b <;>
    simp [idCmp, Batteries.BEqCmp.cmp_iff_eq]

theorem idCmp_gt_iff {a b : ID} : idCmp a b = .gt ↔ idCmp b a = .lt := by
  cases a <;> cases b <;>
    simp [idCmp, Batteries.OrientedCmp.cmp_eq_gt]

theorem idCmp_lt_trans {a b c : ID} (h1 : idCmp a b = .lt)
    (h2 : idCmp b c = .lt) : idCmp a c = .lt := by
  cases a <;> cases b <;> cases c <;> simp_all [idCmp] <;>
    exact Batteries.TransCmp.lt_trans h1 h2

/-! ## `btreeInsert` preserves sortedness -/

theorem mem_btreeInsert {α : Type} {k : ID} {v : α} {l : List (ID × α)}
    {p : ID × α} (h : p ∈ btreeInsert k v l) : p = (k, v) ∨ p ∈ l := by
  induction l with
  | nil => simpa [btreeInsert] using h
  | cons q rest ih =>
    obtain ⟨k', v'⟩ := q
    simp only [btreeInsert] at h
    cases hc : idCmp k k' <;> rw [hc] at h <;>
      simp only [List.mem_cons] at h
    · rcases h with h | h | h
      · exact .inl h
      · exact .inr (by simp [h])
      · exact .inr (List.mem_cons_of_mem _ h)
    · rcases h with h | h
      · exact .inl h
      · exact .inr (List.mem_cons_of_mem _ h)
    · rcases h with h | h
      · exact .inr (by simp [h])
      · rcases ih h with h | h
        · exact .inl h
        · exact .inr (List.mem_cons_of_mem _ h)

theorem btreeSorted_insert {α : Type} (k : ID) (v : α) {l : List (ID × α)}
    (h : btreeSorted l) : btreeSorted (btreeInsert k v l) := by
  induction l with
  | nil => simp [btreeInsert, btreeSorted]
  | cons q rest ih =>
    obtain ⟨k', v'⟩ := q
    rw [btreeSorted, List.pairwise_cons] at h
    obtain ⟨hall, hrest⟩ := h
    simp only [btreeInsert]
    cases hc : idCmp k k'
    · rw [btreeSorted, List.pairwise_cons]
      refine ⟨?_, List.Pairwise.cons hall hrest⟩
      intro q2 hmem
      rcases List.mem_cons.mp hmem with h | h
      · rw [h]; exact hc
      · exact idCmp_lt_trans hc (hall _ h)
    · rw [btreeSorted, List.pairwise_cons]
      have hk : k = k' := idCmp_eq_iff.mp hc
      subst hk
      exact ⟨hall, hrest⟩
    · rw [btreeSorted, List.pairwise_cons]
      refine ⟨?_, ih hrest⟩
      intro q2 hmem
      rcases mem_btreeInsert hmem with h | h
      · rw [h]; exact idCmp_gt_iff.mp hc
      · exact hall _ h

theorem btreeSorted_foldl {α β : Type} (f : β → ID × α)
    (page : List β) {acc : List (ID × α)} (h : btreeSorted acc) :
    btreeSorted
      (page.foldl (fun acc pr => btreeInsert (f pr).1 (f pr).2 acc) acc) := by
  induction page generalizing acc with
  | nil => simpa using h
  | cons x rest ih => exact ih (btreeSorted_insert _ _ h)

/-! ## Claim C3: `partial_cmp` on `Types` -/

set_option maxRecDepth 8000 in
/-- C3 counterexample: `partial_cmp` is not reflexive on comparable values —
for the `Float` value `1.0` (bit pattern 4607182418800017408) the source
returns `Some(Less)`, not `Some(Equal)`, when comparing it with itself. -/
theorem C3_counterexample :
    Types.pcmp (.Float 4607182418800017408) (.Float 4607182418800017408) =
      some Ordering.lt ∧
    (some Ordering.lt : Option Ordering) ≠ some Ordering.eq := by
  constructor
  · rfl
  · decide

/-- C3 amended: `partial_cmp` returns `Some` exactly on like comparable
variants and the `Integer`/`Float` cross pairs, and `None` on every other
pair; it is reflexive (`Some(Equal)` on equal values) on `Integer`, `Char`,
`String`, `Precise`, `Uuid`, `Boolean` and `Vector`, but on `Float`/`Float`
and `Integer`/`Float` pairs it returns `Greater` if `a > b` and otherwise
`Less`, so it never returns `Equal` there and equal floats compare `Less`. -/
theorem C3_pcmp_amended :
    (∀ a b : Types, (Types.pcmp a b).isSome = likeComparable a b)
  ∧ (∀ i : Int, Types.pcmp (.Integer i) (.Integer i) = some .eq)
  ∧ (∀ c : Char, Types.pcmp (.Char c) (.Char c) = some .eq)
  ∧ (∀ s : String, Types.pcmp (.String s) (.String s) = some .eq)
  ∧ (∀ s : String, Types.pcmp (.Precise s) (.Precise s) = some .eq)
  ∧ (∀ u : Nat, Types.pcmp (.Uuid u) (.Uuid u) = some .eq)
  ∧ (∀ b : Bool, Types.pcmp (.Boolean b) (.Boolean b) = some .eq)
  ∧ (∀ v : List Types, Types.pcmp (.Vector v) (.Vector v) = some .eq)
  ∧ (∀ x y : Nat, Types.pcmp (.Float x) (.Float y) =
      some (if f64Gt x y then .gt else .lt))
  ∧ (∀ (i : Int) (y : Nat), Types.pcmp (.Integer i) (.Float y) ≠ some .eq
      ∧ Types.pcmp (.Float y) (.Integer i) ≠ some .eq) := by
  refine ⟨?_, ?_, ?_, ?_, ?_, ?_, ?_, ?_, ?_, ?_⟩
  · intro a b
    cases a <;> cases b <;> simp [Types.pcmp, likeComparable]
  · intro i; simp [Types.pcmp, Batteries.BEqCmp.cmp_iff_eq]
  · intro c; simp [Types.pcmp, Batteries.BEqCmp.cmp_iff_eq]
  · intro s; simp [Types.pcmp, Batteries.BEqCmp.cmp_iff_eq]
  · intro s; simp [Types.pcmp, Batteries.BEqCmp.cmp_iff_eq]
  · intro u; simp [Types.pcmp, Batteries.BEqCmp.cmp_iff_eq]
  · intro b; simp [Types.pcmp, Batteries.BEqCmp.cmp_iff_eq]
  · intro v; simp [Types.pcmp, Batteries.BEqCmp.cmp_iff_eq]
  · intro x y; rfl
  · intro i y
    refine ⟨?_, ?_⟩ <;> · simp only [Types.pcmp]; split <;> simp

/-- C3 witness: the amended theorem applied at the concrete integer 3
(reflexivity on `Integer`). -/
theorem C3_witness :
    Types.pcmp (.Integer 3) (.Integer 3) = some Ordering.eq :=
  C3_pcmp_amended.2.1 3

/-! ## Claim C8: `default_values` -/

/-- C8 counterexample: the result of `default_values` is not a fixed value
determined by the variant alone — the `Uuid` arm returns the freshly
generated `Uuid::new_v4()` and the `DateTime` arm returns `Utc::now()`, so
two calls on the same input differ when the ambient values differ. -/
theorem C8_counterexample :
    Types.default_values (.Uuid 0) 1 0 ≠ Types.default_values (.Uuid 0) 2 0 ∧
    Types.default_values (.DateTime 0) 0 1 ≠
      Types.default_values (.DateTime 0) 0 2 := by
  constructor <;> simp [Types.default_values]

/-- C8 amended: for every variant other than `Uuid` and `DateTime`,
`default_values` returns the fixed zero value of the variant (`Char ' '`,
`Integer 0`, empty `String`, `Float 0.0`, `Boolean false`, empty `Vector`,
empty `Map`, empty `Hash`, `Precise "0"`, `Nil`); the `Uuid` arm returns a
freshly generated v4 uuid and the `DateTime` arm the current time, so those
two depend on ambient state rather than on the variant alone. -/
theorem C8_default_values_amended (u : Nat) (now : Int) :
    (∀ c, (Types.Char c).default_values u now = .Char ' ')
  ∧ (∀ i, (Types.Integer i).default_values u now = .Integer 0)
  ∧ (∀ s, (Types.String s).default_values u now = .String "")
  ∧ (∀ x, (Types.Uuid x).default_values u now = .Uuid u)
  ∧ (∀ b, (Types.Float b).default_values u now = .Float 0)
  ∧ (∀ b, (Types.Boolean b).default_values u now = .Boolean false)
  ∧ (∀ v, (Types.Vector v).default_values u now = .Vector [])
  ∧ (∀ m, (Types.Map m).default_values u now = .Map [])
  ∧ (∀ s, (Types.Hash s).default_values u now = .Hash "")
  ∧ (∀ s, (Types.Precise s).default_values u now = .Precise "0")
  ∧ (∀ d, (Types.DateTime d).default_values u now = .DateTime now)
  ∧ Types.Nil.default_values u now = .Nil :=
  ⟨fun _ => rfl, fun _ => rfl, fun _ => rfl, fun _ => rfl, fun _ => rfl,
   fun _ => rfl, fun _ => rfl, fun _ => rfl, fun _ => rfl, fun _ => rfl,
   fun _ => rfl, rfl⟩

/-- C8 witness: the amended theorem applied at concrete ambient values —
with fresh uuid 7 and now 9, the `Uuid` arm returns the fresh uuid and the
`Integer` arm its fixed zero. -/
theorem C8_witness :
    (Types.Uuid 0).default_values 7 9 = .Uuid 7 ∧
    (Types.Integer 5).default_values 7 9 = .Integer 0 :=
  ⟨(C8_default_values_amended 7 9).2.2.2.1 0,
   (C8_default_values_amended 7 9).2.1 5⟩

/-! ## Claim C10: `check_value_controller` panics on a missing id -/

/-- C10: evaluating the embedded `check_value_controller` at an entity that
exists in the store but with an id absent from its id map reaches the
`.get(&id).unwrap()` of query.rs line 141 on `None` — a panic (`none` in the
embedding), not an error `Result`. -/
theorem C10_check_value_panics :
    check_value_controller [] [("e", [])] "e" (.Number 1) [("age", "3")] =
      none := rfl

/-! ## Claim C5: CHECK with non-encrypted keys -/

/-- C5 counterexample: when the entity has no entry in the encryption map,
the non-encrypted-keys check is skipped entirely (`guard.contains_key` gate),
so a CHECK whose content keys are not declared encrypted proceeds and
succeeds instead of returning `CheckNonEncryptedKeys`. -/
theorem C5_counterexample :
    check_value_controller [] [("e", [(.Number 1, [])])] "e" (.Number 1)
        [("k", "v")] = some (.ok []) ∧
    some (Except.ok ([] : Entity)) ≠
      some (Except.error (Error.CheckNonEncryptedKeys ["k"])) := by
  constructor
  · rfl
  · simp

/-- C5 amended: `check_value_controller` returns `CheckNonEncryptedKeys`
listing exactly the content keys missing from the declared encrypted-keys
set if and only if the entity has an entry in the encryption map and at
least one such key exists; when the entity has no encryption entry the check
is skipped and that error is never returned. -/
theorem C5_check_encrypt_amended (encryption : List (String × List String))
    (localData : LocalData) (entity : String) (id : ID)
    (content : List (String × String)) :
    (∀ encrypts, encryption.lookup entity = some encrypts →
      ((content.filter fun kv => !encrypts.contains kv.1).map Prod.fst ≠ [] →
        check_value_controller encryption localData entity id content =
          some (.error (.CheckNonEncryptedKeys
            ((content.filter fun kv => !encrypts.contains kv.1).map
              Prod.fst)))) ∧
      ((content.filter fun kv => !encrypts.contains kv.1).map Prod.fst = [] →
        ∀ ks, check_value_controller encryption localData entity id content ≠
          some (.error (.CheckNonEncryptedKeys ks))))
  ∧ (encryption.lookup entity = none →
      ∀ ks, check_value_controller encryption localData entity id content ≠
        some (.error (.CheckNonEncryptedKeys ks))) := by
  have hafter : ∀ ks,
      (if (localData.lookup entity).isNone then
        some (Except.error (Error.EntityNotCreated entity))
      else
        match (localData.lookup entity).getD [] |>.lookup id with
        | none => none
        | some reg =>
          some (.ok (reg.filter fun kv =>
            (content.map (·.1)).contains kv.1))) ≠
        some (.error (.CheckNonEncryptedKeys ks)) := by
    intro ks
    split
    · simp
    · split <;> simp
  constructor
  · intro encrypts henc
    constructor
    · intro hne
      simp only [check_value_controller, henc]
      rw [if_pos hne]
    · intro he ks
      simp only [check_value_controller, henc]
      rw [if_neg (not_not_intro he)]
      exact hafter ks
  · intro henc ks
    simp only [check_value_controller, henc]
    exact hafter ks

/-- C5 witness: the amended theorem applied to a store where the entity has
an encryption entry and the content holds one non-encrypted key. -/
theorem C5_witness :
    (List.lookup "e" [("e", ["pw"])] = some ["pw"] ∧
      (([("k", "v"), ("pw", "x")] : List (String × String)).filter
          fun kv => !(["pw"].contains kv.1)).map Prod.fst ≠ []) ∧
    check_value_controller [("e", ["pw"])] [("e", [(.Number 1, [])])] "e"
        (.Number 1) [("k", "v"), ("pw", "x")] =
      some (.error (.CheckNonEncryptedKeys
        ((([("k", "v"), ("pw", "x")] : List (String × String)).filter
            fun kv => !(["pw"].contains kv.1)).map Prod.fst))) :=
  ⟨⟨rfl, by decide⟩,
    ((C5_check_encrypt_amended [("e", ["pw"])] [("e", [(.Number 1, [])])] "e"
        (.Number 1) [("k", "v"), ("pw", "x")]).1 ["pw"] rfl).1 (by decide)⟩

/-! ## Claim C4: SELECT ... IDS row order -/

/-- C4 counterexample: with both requested ids present, the rows come back in
ascending intrinsic `ID` order (`BTreeMap` key order), not in the request
order `[2, 1]`. -/
theorem C4_counterexample :
    (select_all_with_ids [("e", [(.Number 1, []), (.Number 2, [])])] "e"
        [.Number 2, .Number 1] 0 1000).map (fun l => l.map Prod.fst) =
      .ok [ID.Number 1, ID.Number 2] ∧
    (Except.ok [ID.Number 1, ID.Number 2] : Except Error (List ID)) ≠
      .ok [ID.Number 2, ID.Number 1] := by
  constructor
  · rfl
  · simp

/-- C4 amended: the projected rows of `select_all_with_ids` and
`select_keys_with_ids` are accumulated into a `BTreeMap` keyed by `ID`, so
they are returned sorted in ascending intrinsic `ID` order
(`Uuid < Number < String`, each compared internally) regardless of the order
of the requested id list; `OFFSET` and `LIMIT` are applied to the
request-ordered list of found ids before this reordering. -/
theorem C4_select_ids_sorted (localData : LocalData) (entity : String)
    (keys : List String) (ids : List ID) (offset limit : Nat)
    (outA outK : List (ID × Option Entity))
    (hA : select_all_with_ids localData entity ids offset limit = .ok outA)
    (hK : select_keys_with_ids localData entity keys ids offset limit =
      .ok outK) :
    btreeSorted outA ∧ btreeSorted outK := by
  constructor
  · rw [select_all_with_ids] at hA
    cases hl : localData.lookup entity with
    | none => rw [hl] at hA; exact absurd hA (by simp)
    | some idToRegistry =>
      rw [hl] at hA
      simp only [Except.ok.injEq] at hA
      subst hA
      exact btreeSorted_foldl
        (fun idReg : ID × Entity =>
          (idReg.1, some (filter_keys_and_hash idReg.2 none))) _
        List.Pairwise.nil
  · rw [select_keys_with_ids] at hK
    cases hl : localData.lookup entity with
    | none => rw [hl] at hK; exact absurd hK (by simp)
    | some idToRegistry =>
      rw [hl] at hK
      simp only [Except.ok.injEq] at hK
      subst hK
      exact btreeSorted_foldl
        (fun idReg : ID × Entity =>
          (idReg.1, some (filter_keys_and_hash idReg.2 (some keys)))) _
        List.Pairwise.nil

/-- C4 witness: the amended theorem applied at a concrete store and request. -/
theorem C4_witness :
    select_all_with_ids [("e", [(.Number 1, []), (.Number 2, [])])] "e"
        [.Number 2, .Number 1] 0 1000 =
      .ok [(.Number 1, some []), (.Number 2, some [])] ∧
    select_keys_with_ids [("e", [(.Number 1, []), (.Number 2, [])])] "e"
        ["k"] [.Number 2, .Number 1] 0 1000 =
      .ok [(.Number 1, some []), (.Number 2, some [])] ∧
    (btreeSorted
        ([(.Number 1, some []), (.Number 2, some [])] :
          List (ID × Option Entity)) ∧
      btreeSorted
        ([(.Number 1, some []), (.Number 2, some [])] :
          List (ID × Option Entity))) :=
  ⟨rfl, rfl,
    C4_select_ids_sorted [("e", [(.Number 1, []), (.Number 2, [])])] "e"
      ["k"] [.Number 2, .Number 1] 0 1000 _ _ rfl rfl⟩

/-! ## Claim C6: `create_user_controller` -/

/-- C6: for a well-formed create-user body, the controller returns
`AuthenticationBadRequest` exactly when the admin credential check fails,
and when the check succeeds and both the user-password hashing and the
users-log append succeed it returns `Ok` with the freshly minted user uuid. -/
theorem C6_create_user (c : CreateUserWithAdmin)
    (isValidHash : String → String → Bool) (hashResult : Option String)
    (logOk : Bool) (uid : Nat) (perr : String) :
    (create_user_controller (some c) isValidHash hashResult logOk uid perr =
        .error .AuthenticationBadRequest ↔
      isValidHash c.admin_password c.admin_id = false)
  ∧ (isValidHash c.admin_password c.admin_id = true →
      ∀ h, hashResult = some h → logOk = true →
        create_user_controller (some c) isValidHash hashResult logOk uid
          perr = .ok ⟨uid⟩) := by
  constructor
  · simp only [create_user_controller]
    cases hv : isValidHash c.admin_password c.admin_id
    · simp
    · simp only [if_true, Bool.true_eq_false, iff_false]
      cases hashResult with
      | none => simp
      | some h => cases logOk <;> simp
  · intro hv h hh hl
    simp [create_user_controller, hv, hh, hl]

/-- C6 witness: the theorem applied at a concrete body and collaborator
outcomes. -/
theorem C6_witness :
    ((fun _ _ => true : String → String → Bool) "pw" "admin" = true ∧
      (some "h" : Option String) = some "h" ∧ true = true) ∧
    create_user_controller (some ⟨"admin", "pw", ⟨"upw", ["User"]⟩⟩)
        (fun _ _ => true) (some "h") true 42 "" = .ok ⟨42⟩ :=
  ⟨⟨rfl, rfl, rfl⟩,
    (C6_create_user ⟨"admin", "pw", ⟨"upw", ["User"]⟩⟩ (fun _ _ => true)
        (some "h") true 42 "").2 rfl "h" rfl rfl⟩

/-! ## Claim C7: `put_user_session_controller` -/

/-- C7: for a well-formed body naming a registered user, with the session
lock available: if the password verifies, the controller returns `Ok(token)`
and the session table afterwards maps that exact token to an entry whose
expiration is `now` plus the configured TTL and whose roles are the stored
roles; if the password does not verify (or verification errors), it returns
an error and the session table is unchanged. -/
theorem C7_put_user_session (expTime : Int) (user : UserCred)
    (storedHash : String) (roles : List String)
    (bverify : String → String → Option Bool) (session : SessionTable)
    (hashTokenRes : Option String) (fallbackUuid : String) (now : Int)
    (perr : String) :
    (bverify user.user_password storedHash = some true →
      put_user_session_controller expTime (some user)
          (some (storedHash, roles)) bverify true session hashTokenRes
          fallbackUuid now perr =
        (.ok (hashTokenRes.getD fallbackUuid),
          hmInsert (hashTokenRes.getD fallbackUuid)
            ⟨now + expTime, roles⟩ session) ∧
      (hmInsert (hashTokenRes.getD fallbackUuid) ⟨now + expTime, roles⟩
          session).lookup (hashTokenRes.getD fallbackUuid) =
        some ⟨now + expTime, roles⟩)
  ∧ (bverify user.user_password storedHash ≠ some true →
      put_user_session_controller expTime (some user)
          (some (storedHash, roles)) bverify true session hashTokenRes
          fallbackUuid now perr = (.error .Unknown, session)) := by
  constructor
  · intro hv
    constructor
    · simp [put_user_session_controller, hv]
    · simp [hmInsert, List.lookup]
  · intro hv
    cases hb : bverify user.user_password storedHash with
    | none => simp [put_user_session_controller, hb]
    | some b =>
      cases b with
      | false => simp [put_user_session_controller, hb]
      | true => exact absurd hb hv

/-- C7 witness: the theorem applied at a concrete session request, both for a
verifying and a non-verifying password. -/
theorem C7_witness :
    ((fun pw _ => some (pw == "right") : String → String → Option Bool)
        "right" "h" = some true ∧
      (fun pw _ => some (pw == "right") : String → String → Option Bool)
        "wrong" "h" ≠ some true) ∧
    (put_user_session_controller 100 (some ⟨7, "right"⟩) (some ("h", ["User"]))
        (fun pw _ => some (pw == "right")) true [] (some "tok") "fb" 1000 "" =
      (.ok "tok", [("tok", ⟨1100, ["User"]⟩)]) ∧
      ([("tok", (⟨1100, ["User"]⟩ : SessionInfo))]).lookup "tok" =
        some ⟨1100, ["User"]⟩) ∧
    put_user_session_controller 100 (some ⟨7, "wrong"⟩) (some ("h", ["User"]))
        (fun pw _ => some (pw == "right")) true [] (some "tok") "fb" 1000 "" =
      (.error .Unknown, []) :=
  ⟨⟨rfl, by decide⟩,
    (C7_put_user_session 100 ⟨7, "right"⟩ "h" ["User"]
        (fun pw _ => some (pw == "right")) [] (some "tok") "fb" 1000 "").1 rfl,
    (C7_put_user_session 100 ⟨7, "wrong"⟩ "h" ["User"]
        (fun pw _ => some (pw == "right")) [] (some "tok") "fb" 1000 "").2
      (by decide)⟩

/-! ## Injectivity of the f64 order key on non-NaN, non-negative-zero
patterns (used for claim C2) -/

theorem f64Frac_lt (b : Nat) : f64Frac b < 2 ^ 52 := by
  simp only [f64Frac]; omega

theorem f64Expf_lt (b : Nat) : f64Expf b < 2 ^ 11 := by
  simp only [f64Expf]; omega

theorem f64Sign_lt (b : Nat) : f64Sign b < 2 := by
  simp only [f64Sign]; omega

theorem f64_decomp {b : Nat} (h : b < 2 ^ 64) :
    b = f64Sign b * 2 ^ 63 + f64Expf b * 2 ^ 52 + f64Frac b := by
  simp only [f64Sign, f64Expf, f64Frac]; omega

set_option maxRecDepth 10000 in
theorem f64Mag_lt {b : Nat} (h : f64Expf b ≠ 2047) : f64Mag b < 2 ^ 2099 := by
  have hf := f64Frac_lt b
  have he := f64Expf_lt b
  simp only [f64Mag]
  split
  · omega
  · have h2 : (2 : Nat) ^ f64Expf b ≤ 2 ^ 2046 :=
      Nat.pow_le_pow_right (by norm_num) (by omega)
    have h3 : (f64Frac b + 2 ^ 52) * 2 ^ f64Expf b ≤ (2 ^ 53 - 1) * 2 ^ 2046 :=
      Nat.mul_le_mul (by omega) h2
    have h4 : ((2 : Nat) ^ 53 - 1) * 2 ^ 2046 < 2 ^ 53 * 2 ^ 2046 :=
      (Nat.mul_lt_mul_right (Nat.two_pow_pos 2046)).mpr (by omega)
    have h5 : (2 : Nat) ^ 53 * 2 ^ 2046 = 2 ^ 2099 := by rw [← pow_add]
    omega

theorem f64Mag_eq_zero {b : Nat} (h : f64Mag b = 0) :
    f64Expf b = 0 ∧ f64Frac b = 0 := by
  simp only [f64Mag] at h
  split at h
  · exact ⟨‹_›, by omega⟩
  · exfalso
    rcases Nat.mul_eq_zero.mp h with h1 | h1
    · omega
    · have := Nat.two_pow_pos (f64Expf b); omega

theorem normalMag_inj {fa fb ea eb : Nat} (hfa : fa < 2 ^ 52)
    (hfb : fb < 2 ^ 52) (hle : ea ≤ eb)
    (h : (fa + 2 ^ 52) * 2 ^ ea = (fb + 2 ^ 52) * 2 ^ eb) :
    ea = eb ∧ fa = fb := by
  rcases Nat.eq_or_lt_of_le hle with heq | hlt
  · subst heq
    have := Nat.eq_of_mul_eq_mul_right (Nat.two_pow_pos ea) h
    exact ⟨rfl, by omega⟩
  · exfalso
    have hsplit : (2 : Nat) ^ eb = 2 ^ (eb - ea) * 2 ^ ea := by
      rw [← pow_add]; congr 1; omega
    rw [hsplit, ← Nat.mul_assoc] at h
    have hc := Nat.eq_of_mul_eq_mul_right (Nat.two_pow_pos ea) h
    have h2 : (2 : Nat) ^ 1 ≤ 2 ^ (eb - ea) :=
      Nat.pow_le_pow_right (by norm_num) (by omega)
    have h3 : (fb + 2 ^ 52) * 2 ^ 1 ≤ (fb + 2 ^ 52) * 2 ^ (eb - ea) :=
      Nat.mul_le_mul (le_refl _) h2
    omega

theorem f64Mag_inj {a b : Nat} (ha : f64Expf a ≠ 2047)
    (hb : f64Expf b ≠ 2047) (h : f64Mag a = f64Mag b) :
    f64Expf a = f64Expf b ∧ f64Frac a = f64Frac b := by
  have hfa := f64Frac_lt a
  have hfb := f64Frac_lt b
  simp only [f64Mag] at h
  by_cases h0a : f64Expf a = 0 <;> by_cases h0b : f64Expf b = 0
  · rw [if_pos h0a, if_pos h0b] at h
    exact ⟨h0a.trans h0b.symm, by omega⟩
  · exfalso
    rw [if_pos h0a, if_neg h0b] at h
    have h2 : (2 : Nat) ^ 1 ≤ 2 ^ f64Expf b :=
      Nat.pow_le_pow_right (by norm_num) (by omega)
    have h3 : (2 ^ 52 + 0) * 2 ^ 1 ≤ (f64Frac b + 2 ^ 52) * 2 ^ f64Expf b :=
      Nat.mul_le_mul (by omega) h2
    omega
  · exfalso
    rw [if_neg h0a, if_pos h0b] at h
    have h2 : (2 : Nat) ^ 1 ≤ 2 ^ f64Expf a :=
      Nat.pow_le_pow_right (by norm_num) (by omega)
    have h3 : (2 ^ 52 + 0) * 2 ^ 1 ≤ (f64Frac a + 2 ^ 52) * 2 ^ f64Expf a :=
      Nat.mul_le_mul (by omega) h2
    omega
  · rw [if_neg h0a, if_neg h0b] at h
    rcases Nat.le_total (f64Expf a) (f64Expf b) with hle | hle
    · exact normalMag_inj hfa hfb hle h
    · obtain ⟨h1, h2⟩ := normalMag_inj hfb hfa hle h.symm
      exact ⟨h1.symm, h2.symm⟩

theorem f64Key_inj {a b : Nat} (hab : a < 2 ^ 64) (hbb : b < 2 ^ 64)
    (hna : f64IsNan a = false) (hnb : f64IsNan b = false)
    (hza : a ≠ 2 ^ 63) (hzb : b ≠ 2 ^ 63) (h : f64Key a = f64Key b) :
    a = b := by
  have hda := f64_decomp hab
  have hdb := f64_decomp hbb
  have hsa := f64Sign_lt a
  have hsb := f64Sign_lt b
  rw [f64IsNan] at hna hnb
  simp only [Bool.and_eq_false_imp, beq_iff_eq, bne_eq_false_iff_eq] at hna hnb
  have hbig : (0 : Int) < 2 ^ 2200 := by positivity
  simp only [f64Key] at h
  by_cases hia : f64Expf a = 2047 <;> by_cases hib : f64Expf b = 2047
  · rw [if_pos hia, if_pos hib] at h
    have hfa0 := hna hia
    have hfb0 := hnb hib
    by_cases hs0a : f64Sign a = 0 <;> by_cases hs0b : f64Sign b = 0
    · rw [if_pos hs0a, if_pos hs0b] at h; omega
    · rw [if_pos hs0a, if_neg hs0b] at h; omega
    · rw [if_neg hs0a, if_pos hs0b] at h; omega
    · rw [if_neg hs0a, if_neg hs0b] at h; omega
  · exfalso
    rw [if_pos hia, if_neg hib] at h
    have hmb : (f64Mag b : Int) < 2 ^ 2099 := by
      have := f64Mag_lt hib
      exact_mod_cast this
    have hlt : ((2 : Int) ^ 2099) < 2 ^ 2200 :=
      pow_lt_pow_right₀ one_lt_two (by norm_num)
    have hnn : (0 : Int) ≤ (f64Mag b : Int) := Int.ofNat_nonneg _
    by_cases hs0a : f64Sign a = 0 <;>
      first
        | rw [if_pos hs0a] at h
        | rw [if_neg hs0a] at h
    all_goals by_cases hs0b : f64Sign b = 0 <;>
      first
        | (rw [if_pos hs0b] at h; omega)
        | (rw [if_neg hs0b] at h; omega)
  · exfalso
    rw [if_neg hia, if_pos hib] at h
    have hma : (f64Mag a : Int) < 2 ^ 2099 := by
      have := f64Mag_lt hia
      exact_mod_cast this
    have hlt : ((2 : Int) ^ 2099) < 2 ^ 2200 :=
      pow_lt_pow_right₀ one_lt_two (by norm_num)
    have hnn : (0 : Int) ≤ (f64Mag a : Int) := Int.ofNat_nonneg _
    by_cases hs0a : f64Sign a = 0 <;>
      first
        | rw [if_pos hs0a] at h
        | rw [if_neg hs0a] at h
    all_goals by_cases hs0b : f64Sign b = 0 <;>
      first
        | (rw [if_pos hs0b] at h; omega)
        | (rw [if_neg hs0b] at h; omega)
  · rw [if_neg hia, if_neg hib] at h
    have hmageq : f64Mag a = f64Mag b ∨ (f64Mag a = 0 ∧ f64Mag b = 0) := by
      by_cases hs0a : f64Sign a = 0 <;> by_cases hs0b : f64Sign b = 0
      · rw [if_pos hs0a, if_pos hs0b] at h; left; exact_mod_cast h
      · rw [if_pos hs0a, if_neg hs0b] at h; right; omega
      · rw [if_neg hs0a, if_pos hs0b] at h; right; omega
      · rw [if_neg hs0a, if_neg hs0b] at h; left; omega
    rcases hmageq with hmag | ⟨hm0a, hm0b⟩
    · obtain ⟨he, hf⟩ := f64Mag_inj hia hib hmag
      by_cases hs0a : f64Sign a = 0 <;> by_cases hs0b : f64Sign b = 0
      · omega
      · exfalso
        rw [if_pos hs0a, if_neg hs0b] at h
        have hz : f64Mag a = 0 := by omega
        obtain ⟨he0, hf0⟩ := f64Mag_eq_zero hz
        omega
      · exfalso
        rw [if_neg hs0a, if_pos hs0b] at h
        have hz : f64Mag a = 0 := by omega
        obtain ⟨he0, hf0⟩ := f64Mag_eq_zero hz
        omega
      · omega
    · obtain ⟨hea, hfa⟩ := f64Mag_eq_zero hm0a
      obtain ⟨heb, hfb⟩ := f64Mag_eq_zero hm0b
      omega

/-! ## Claim C2: hashing versus structural equality -/

theorem hashAux : ∀ n : Nat,
    (∀ a b : Types, sizeOf a ≤ n → a.hashCompatible = true →
      b.hashCompatible = true → Types.beq a b = true →
      a.hashTokens = b.hashTokens) ∧
    (∀ va vb : List Types, sizeOf va ≤ n →
      Types.hashCompatible.hcList va = true →
      Types.hashCompatible.hcList vb = true →
      Types.beq.beqList va vb = true →
      Types.hashTokens.hashList va = Types.hashTokens.hashList vb ∧
        va.length = vb.length) := by
  intro n
  induction n using Nat.strong_induction_on with
  | _ n ih =>
    constructor
    · intro a b hle hca hcb heq
      cases a <;> cases b <;>
        simp only [Types.beq, beq_iff_eq] at heq <;>
        first
          | exact absurd heq Bool.false_ne_true
          | rfl
          | rw [heq]
          | skip
      -- Float / Float
      · rename_i x y
        simp only [Types.hashCompatible, Bool.and_eq_true, decide_eq_true_eq,
          bne_iff_ne, ne_eq] at hca hcb
        simp only [f64Eq, Bool.and_eq_true, beq_iff_eq,
          Bool.not_eq_true'] at heq
        obtain ⟨⟨hna, hnb⟩, hkey⟩ := heq
        rw [f64Key_inj hca.1 hcb.1 hna hnb hca.2 hcb.2 hkey]
      -- Vector / Vector
      · rename_i va vb
        simp only [Types.hashCompatible] at hca hcb
        have hs : sizeOf (Types.Vector va) = 1 + sizeOf va := by simp
        obtain ⟨hl, hlen⟩ :=
          (ih (sizeOf va) (by omega)).2 va vb le_rfl hca hcb heq
        simp only [Types.hashTokens]
        rw [hlen, hl]
      -- Map / Map: excluded by `hashCompatible`
      · exact absurd hca (by simp [Types.hashCompatible])
    · intro va vb hle hca hcb heq
      cases va with
      | nil =>
        cases vb with
        | nil => exact ⟨rfl, rfl⟩
        | cons y ys => simp [Types.beq.beqList] at heq
      | cons x xs =>
        cases vb with
        | nil => simp [Types.beq.beqList] at heq
        | cons y ys =>
          simp only [Types.beq.beqList, Bool.and_eq_true] at heq
          obtain ⟨h1, h2⟩ := heq
          simp only [Types.hashCompatible.hcList, Bool.and_eq_true]
            at hca hcb
          have hs : sizeOf (x :: xs) = 1 + sizeOf x + sizeOf xs := by simp
          have hx :=
            (ih (sizeOf x) (by omega)).1 x y le_rfl hca.1 hcb.1 h1
          obtain ⟨hxs, hlen⟩ :=
            (ih (sizeOf xs) (by omega)).2 xs ys le_rfl hca.2 hcb.2 h2
          refine ⟨?_, by simp [hlen]⟩
          simp only [Types.hashTokens.hashList]
          rw [hx, hxs]

set_option maxRecDepth 8000 in
/-- C2 counterexample: hashing is not consistent with structural equality —
two `Map` values holding the same pairs in different iteration orders are
equal but produce different hash streams (the source folds the map in
iteration order), and `0.0 == -0.0` yet their `integer_decode` results (and
hence hashes) differ in the sign component. -/
theorem C2_counterexample :
    (Types.beq (.Map [("a", .Integer 1), ("b", .Integer 2)])
        (.Map [("b", .Integer 2), ("a", .Integer 1)]) = true ∧
      Types.hashTokens (.Map [("a", .Integer 1), ("b", .Integer 2)]) ≠
        Types.hashTokens (.Map [("b", .Integer 2), ("a", .Integer 1)])) ∧
    (Types.beq (.Float 0) (.Float (2 ^ 63)) = true ∧
      Types.hashTokens (.Float 0) ≠ Types.hashTokens (.Float (2 ^ 63))) := by
  refine ⟨⟨?_, ?_⟩, ?_, ?_⟩ <;> decide

/-- C2 amended: hashing is consistent with structural equality on values
that contain no `Map` and no negative-zero `Float` (equal such values have
equal hash streams); `Nil` hashes as the empty string and a `Float` hashes
its decoded bit pattern `(mantissa, exponent, sign)`.  The excluded cases
genuinely fail: `Map` hashing depends on iteration order and `-0.0` hashes
differently from `0.0` (see the counterexample). -/
theorem C2_hash_amended :
    (∀ a b : Types, a.hashCompatible = true → b.hashCompatible = true →
      Types.beq a b = true → a.hashTokens = b.hashTokens)
  ∧ Types.Nil.hashTokens = [.hStr ""]
  ∧ (∀ bits : Nat, (Types.Float bits).hashTokens =
      [.hDecoded (integer_decode bits)]) :=
  ⟨fun a b => (hashAux (sizeOf a)).1 a b le_rfl, rfl, fun _ => rfl⟩

set_option maxRecDepth 8000 in
/-- C2 witness: the amended theorem applied to a concrete hash-compatible
vector value. -/
theorem C2_witness :
    ((Types.Vector [.Float 4607182418800017408, .Integer 3]).hashCompatible =
        true ∧
      Types.beq (.Vector [.Float 4607182418800017408, .Integer 3])
        (.Vector [.Float 4607182418800017408, .Integer 3]) = true) ∧
    Types.hashTokens (.Vector [.Float 4607182418800017408, .Integer 3]) =
      Types.hashTokens (.Vector [.Float 4607182418800017408, .Integer 3]) :=
  ⟨⟨by decide, by decide⟩,
    C2_hash_amended.1 _ _ (by decide) (by decide) (by decide)⟩

/-! ## Claim C1: SELECT WHEN RANGE folds the day logs of the whole range -/

/-- C1: when both datetimes parse, the controller delegates to the
`ReadEntityRange` actor (modelled from the spec, its code not being under
`src/`), and the result replays exactly the registers of the target
`(entity, id)` from every day log between the start date and the end date
inclusive — in particular registers on days after the start date but not
after the end date are included. -/
theorem C1_select_when_range (entity : String) (id : ID) (sd ed : String)
    (parseDt : String → Option Int) (logs : DayLogs) (s e : Int)
    (hs : parseDt sd = some s) (he : parseDt ed = some e) :
    select_all_when_range_controller entity id sd ed parseDt logs =
      .ok (readEntityRange entity id s e logs) ∧
    ∀ r : Register, r ∈ readEntityRange entity id s e logs ↔
      ∃ day regs, (day, regs) ∈ logs ∧ dayOf s ≤ day ∧ day ≤ dayOf e ∧
        r ∈ regs ∧ r.entity = entity ∧ r.id = id := by
  constructor
  · simp [select_all_when_range_controller, hs, he]
  · intro r
    simp only [readEntityRange, List.mem_filter, List.mem_flatten,
      List.mem_map, Bool.and_eq_true, decide_eq_true_eq, beq_iff_eq]
    constructor
    · rintro ⟨⟨l, ⟨⟨day, regs⟩, ⟨hmem, hd1, hd2⟩, rfl⟩, hr⟩, hent, hid⟩
      exact ⟨day, regs, hmem, hd1, hd2, hr, hent, hid⟩
    · rintro ⟨day, regs, hmem, hd1, hd2, hr, hent, hid⟩
      exact ⟨⟨regs, ⟨⟨day, regs⟩, ⟨hmem, hd1, hd2⟩, rfl⟩, hr⟩, hent, hid⟩

/-- C1 witness: the theorem applied to the concrete parse and log fixtures
(both dates parse; the range covers days 0 through 2 of the three-day log). -/
theorem C1_witness :
    (parseFix "2021-01-01T00:00:00Z" = some 0 ∧
      parseFix "2021-01-03T00:00:00Z" = some (2 * nsPerDay)) ∧
    select_all_when_range_controller "ent" (.Number 1) "2021-01-01T00:00:00Z"
        "2021-01-03T00:00:00Z" parseFix logsFix =
      .ok (readEntityRange "ent" (.Number 1) 0 (2 * nsPerDay) logsFix) :=
  ⟨⟨rfl, rfl⟩,
    (C1_select_when_range "ent" (.Number 1) "2021-01-01T00:00:00Z"
        "2021-01-03T00:00:00Z" parseFix logsFix 0 (2 * nsPerDay) rfl rfl).1⟩

/-! ## Hex rendering and parsing lemmas (for claim C9) -/

theorem hexVal_hexDigit : ∀ d < 16, hexVal (hexDigit d) = some d := by decide

theorem hexDigit_ne_dash : ∀ d < 16, hexDigit d ≠ '-' := by decide

theorem toHexChars_length : ∀ len n : Nat, (toHexChars len n).length = len := by
  intro len
  induction len with
  | zero => intro n; rfl
  | succ len ih => intro n; simp [toHexChars, ih]

theorem toHexChars_no_dash : ∀ len n : Nat, '-' ∉ toHexChars len n := by
  intro len
  induction len with
  | zero => intro n; simp [toHexChars]
  | succ len ih =>
    intro n
    simp only [toHexChars, List.mem_append, List.mem_singleton, not_or]
    exact ⟨ih _,
      fun hc => absurd hc.symm (hexDigit_ne_dash (n % 16) (by omega))⟩

theorem parseHexGo_append (acc : Nat) (xs ys : List Char) :
    parseHexGo acc (xs ++ ys) =
      (parseHexGo acc xs).bind fun a => parseHexGo a ys := by
  induction xs generalizing acc with
  | nil => simp [parseHexGo]
  | cons c cs ih =>
    simp only [List.cons_append, parseHexGo]
    cases h : hexVal c with
    | none => simp
    | some d => simp [ih]

theorem parseHexGo_toHexChars :
    ∀ len acc n : Nat, n < 16 ^ len →
      parseHexGo acc (toHexChars len n) = some (acc * 16 ^ len + n) := by
  intro len
  induction len with
  | zero =>
    intro acc n h
    have hn : n = 0 := by omega
    subst hn
    simp [toHexChars, parseHexGo]
  | succ len ih =>
    intro acc n h
    have hdiv : n / 16 < 16 ^ len := by
      rw [Nat.div_lt_iff_lt_mul (by norm_num), ← pow_succ]
      exact h
    rw [toHexChars, parseHexGo_append, ih acc (n / 16) hdiv]
    simp only [Option.some_bind, parseHexGo,
      hexVal_hexDigit (n % 16) (by omega), Option.some_bind]
    congr 1
    have hps : (16 : Nat) ^ (len + 1) = 16 ^ len * 16 := pow_succ 16 len
    rw [hps, Nat.add_mul, Nat.add_assoc,
      show n / 16 * 16 + n % 16 = n from by omega, Nat.mul_assoc]

theorem splitDash_no_dash {xs : List Char} (h : '-' ∉ xs) :
    splitDash xs = [xs] := by
  induction xs with
  | nil => rfl
  | cons c cs ih =>
    simp only [List.mem_cons, not_or] at h
    rw [splitDash, if_neg (fun hc => h.1 hc.symm), ih h.2]

theorem splitDash_append {xs : List Char} (ys : List Char) (h : '-' ∉ xs) :
    splitDash (xs ++ '-' :: ys) = xs :: splitDash ys := by
  induction xs with
  | nil => simp [splitDash]
  | cons c cs ih =>
    simp only [List.mem_cons, not_or] at h
    simp only [List.cons_append, splitDash, List.append_eq]
    rw [if_neg (fun hc => h.1 hc.symm), ih h.2]

theorem parseUuid_roundtrip {u : Nat} (h : u < 2 ^ 128) :
    parseUuidChars (uuidHyphenatedChars u) = some u := by
  have hshape : uuidHyphenatedChars u =
      toHexChars 8 (u / 2 ^ 96) ++ '-' ::
        (toHexChars 4 (u / 2 ^ 80 % 2 ^ 16) ++ '-' ::
          (toHexChars 4 (u / 2 ^ 64 % 2 ^ 16) ++ '-' ::
            (toHexChars 4 (u / 2 ^ 48 % 2 ^ 16) ++ '-' ::
              toHexChars 12 (u % 2 ^ 48)))) := rfl
  have hlen : (uuidHyphenatedChars u).length = 36 := by
    rw [hshape]; simp [toHexChars_length]
  have hsplit : splitDash (uuidHyphenatedChars u) =
      [toHexChars 8 (u / 2 ^ 96), toHexChars 4 (u / 2 ^ 80 % 2 ^ 16),
       toHexChars 4 (u / 2 ^ 64 % 2 ^ 16), toHexChars 4 (u / 2 ^ 48 % 2 ^ 16),
       toHexChars 12 (u % 2 ^ 48)] := by
    rw [hshape, splitDash_append _ (toHexChars_no_dash _ _),
      splitDash_append _ (toHexChars_no_dash _ _),
      splitDash_append _ (toHexChars_no_dash _ _),
      splitDash_append _ (toHexChars_no_dash _ _),
      splitDash_no_dash (toHexChars_no_dash _ _)]
  rw [parseUuidChars]
  have hurn : (if (uuidHyphenatedChars u).length = 45 ∧
        (uuidHyphenatedChars u).take 9 = "urn:uuid:".toList
      then (uuidHyphenatedChars u).drop 9
      else uuidHyphenatedChars u) = uuidHyphenatedChars u :=
    if_neg (by simp [hlen])
  rw [hurn, if_neg (by simp [hlen]), if_pos hlen, hsplit, parseHyphenGroups]
  rw [if_pos (by simp [toHexChars_length])]
  rw [parseHexGo_toHexChars 8 0 _ (by omega),
    parseHexGo_toHexChars 4 0 _ (by omega),
    parseHexGo_toHexChars 4 0 _ (by omega),
    parseHexGo_toHexChars 4 0 _ (by omega),
    parseHexGo_toHexChars 12 0 _ (by omega)]
  simp only [Option.some_bind]
  congr 1
  omega

theorem digits_parse_none {s : String} (hd : ∀ c ∈ s.data, c.isDigit)
    (hl : s.length ≠ 32) : parseUuidStr s = none := by
  have hnd : '-' ∉ s.data := fun hmem => absurd (hd _ hmem) (by decide)
  have hsl : s.length = s.data.length := rfl
  rw [parseUuidStr, parseUuidChars]
  have hurn : (if s.data.length = 45 ∧
        s.data.take 9 = "urn:uuid:".toList
      then s.data.drop 9 else s.data) = s.data :=
    if_neg (fun hurn =>
      absurd (hd 'u' ((List.take_subset 9 s.data) (by rw [hurn.2]; decide)))
        (by decide))
  rw [hurn, if_neg (by omega)]
  by_cases h36 : s.data.length = 36
  · rw [if_pos h36, splitDash_no_dash hnd, parseHyphenGroups]
    intro g1 g2 g3 g4 g5 hc
    simp at hc
  · rw [if_neg h36]

/-! ## Claim C9: human-readable ID round trip -/

/-- C9 counterexample: the 32-digit string of zeros is a string of digits,
yet it is valid hexadecimal of simple-uuid length, so its round trip yields
`ID::Uuid 0`, not `ID::String` — refuting "a string of digits deserializes
to ID::String" as universally stated. -/
theorem C9_counterexample :
    deserializeID (serializeID (.String "00000000000000000000000000000000")) =
      ID.Uuid 0 ∧
    ID.Uuid 0 ≠ ID.String "00000000000000000000000000000000" := by
  constructor
  · rfl
  · simp

/-- C9 amended: `ID::Uuid` and `ID::Number` round-trip exactly;
`ID::String s` round-trips to itself precisely when `s` does not parse as a
uuid, and to `ID::Uuid` when it does; a string of digits round-trips to
`ID::String` unless its length is exactly 32 (a 32-digit string is valid
hexadecimal and becomes `ID::Uuid`); string deserialization never produces
`ID::Number`. -/
theorem C9_id_serde_amended :
    (∀ u : Nat, u < 2 ^ 128 →
      deserializeID (serializeID (.Uuid u)) = .Uuid u)
  ∧ (∀ n : Nat, deserializeID (serializeID (.Number n)) = .Number n)
  ∧ (∀ s : String, parseUuidStr s = none →
      deserializeID (serializeID (.String s)) = .String s)
  ∧ (∀ (s : String) (u : Nat), parseUuidStr s = some u →
      deserializeID (serializeID (.String s)) = .Uuid u)
  ∧ (∀ s : String, (∀ c ∈ s.data, c.isDigit) → s.length ≠ 32 →
      deserializeID (serializeID (.String s)) = .String s)
  ∧ (∀ (s : String) (n : Nat), deserializeID (.str s) ≠ .Number n) := by
  refine ⟨?_, ?_, ?_, ?_, ?_, ?_⟩
  · intro u hu
    have hps : parseUuidStr (uuidHyphenated u) =
        parseUuidChars (uuidHyphenatedChars u) := rfl
    simp [serializeID, deserializeID, hps, parseUuid_roundtrip hu]
  · intro n; rfl
  · intro s h; simp [serializeID, deserializeID, h]
  · intro s u h; simp [serializeID, deserializeID, h]
  · intro s hd hl
    simp [serializeID, deserializeID, digits_parse_none hd hl]
  · intro s n
    simp only [deserializeID]
    cases h : parseUuidStr s <;> simp

/-- C9 witness: the amended theorem applied at the uuid 5 and the digit
string "123". -/
theorem C9_witness :
    ((5 : Nat) < 2 ^ 128 ∧
      deserializeID (serializeID (.Uuid 5)) = ID.Uuid 5) ∧
    (("123" : String).length ≠ 32 ∧
      deserializeID (serializeID (.String "123")) = ID.String "123") :=
  ⟨⟨by norm_num, C9_id_serde_amended.1 5 (by norm_num)⟩,
   ⟨by decide,
    C9_id_serde_amended.2.2.2.2.1 "123" (by decide) (by decide)⟩⟩

end WooriDB
